import Mathlib

/-!
Shallow embedding of the reconciliation core of the repository:
`src/matching_engine.py` (find_matching_voucher, match_transactions_to_vouchers)
and `src/journal_generator.py` (apply_rules_to_transaction,
generate_journal_entries).  Python strings are modelled as `String` handled
through their underlying `List Char`; `Decimal` amounts as `Rat`;
`datetime.date` as a year/month/day record with ordinal-day arithmetic;
optional / possibly-missing dict keys as `Option`.  Mutation of the
`_matched` flag on voucher dicts is modelled by explicit state passing over
a voucher list, with vouchers identified by their list position.
-/

namespace Recon

/-! ### Text primitives (models of Python str operations) -/

/-- Model of Python `str.lower()` (ASCII case folding). -/
def lowerChars (s : List Char) : List Char := s.map Char.toLower

/-- Structural model of list-prefix testing for characters. -/
def isPrefixOfC : List Char → List Char → Bool
  | [], _ => true
  | _ :: _, [] => false
  | a :: as, b :: bs => a == b && isPrefixOfC as bs

/-- Model of the Python substring containment test, needle in hay. -/
def containsSub (hay needle : List Char) : Bool :=
  match hay with
  | [] => needle.isEmpty
  | _ :: t => isPrefixOfC needle hay || containsSub t needle

/-- Model of Python `str.split()` with no argument: split on whitespace
runs, dropping empty pieces. -/
def splitWS (l : List Char) : List (List Char) :=
  match l with
  | [] => []
  | c :: rest =>
    if c.isWhitespace then splitWS rest
    else
      match splitWS rest with
      | [] => [[c]]
      | t :: ts =>
        if rest.head?.any (fun d => !d.isWhitespace) then (c :: t) :: ts
        else [c] :: t :: ts

/-- Python truthiness of an optional string: `None` and `""` are falsy. -/
def strTruthy : Option String → Bool
  | none => false
  | some s => !s.data.isEmpty

/-- Python `a or b` on optional strings (first truthy operand). -/
def pyOrStr (a b : Option String) : Option String :=
  if strTruthy a then a else b

/-! ### Dates (model of `datetime.date`) -/

structure PyDate where
  year : Int
  month : Nat
  day : Nat
deriving DecidableEq

/-- Days-from-civil conversion: an affine day count such that subtracting
two ordinals gives the day difference, as Python date subtraction does. -/
def PyDate.toOrdinal (d : PyDate) : Int :=
  let y : Int := if d.month ≤ 2 then d.year - 1 else d.year
  let era : Int := (if 0 ≤ y then y else y - 399) / 400
  let yoe : Int := y - era * 400
  let m : Int := d.month
  let doy : Int := (153 * (m + (if 2 < m then -3 else 9)) + 2) / 5 + d.day - 1
  let doe : Int := yoe * 365 + yoe / 4 - yoe / 100 + doy
  era * 146097 + doe

def isLeapYear (y : Int) : Bool :=
  (y % 4 == 0 && y % 100 != 0) || y % 400 == 0

def daysInMonth (y : Int) (m : Nat) : Nat :=
  if m = 2 then (if isLeapYear y then 29 else 28)
  else if m = 4 ∨ m = 6 ∨ m = 9 ∨ m = 11 then 30
  else 31

def digitVal (c : Char) : Option Nat :=
  if c.isDigit then some (c.toNat - 48) else none

def twoDigits (a b : Char) : Option Nat := do
  let x ← digitVal a
  let y ← digitVal b
  pure (x * 10 + y)

/-- Model of `datetime.date.fromisoformat`: strict `YYYY-MM-DD` with
calendar validity checks (month 1..12, day within the month, year ≥ 1). -/
def parseIso (s : String) : Option PyDate :=
  match s.data with
  | [y1, y2, y3, y4, '-', m1, m2, '-', d1, d2] => do
    let yh ← twoDigits y1 y2
    let yl ← twoDigits y3 y4
    let m ← twoDigits m1 m2
    let d ← twoDigits d1 d2
    let y : Int := yh * 100 + yl
    if 1 ≤ y ∧ 1 ≤ m ∧ m ≤ 12 ∧ 1 ≤ d ∧ d ≤ daysInMonth y m then
      pure ⟨y, m, d⟩
    else none
  | _ => none

/-- Zero-padded decimal rendering, for `date.isoformat`. -/
def natPad (n w : Nat) : List Char :=
  let ds := Nat.toDigits 10 n
  List.replicate (w - ds.length) '0' ++ ds

/-- Model of `date.isoformat()`. -/
def PyDate.isoformat (d : PyDate) : String :=
  ⟨natPad d.year.toNat 4 ++ ['-'] ++ natPad d.month 2 ++ ['-'] ++ natPad d.day 2⟩

/-- A statement `date` field as the code sees it: a `date` object, a string,
or a missing / other-typed value. -/
inductive DateVal where
  | d (d : PyDate)
  | s (s : String)
  | missing
deriving DecidableEq

/-- The date acceptance logic shared by both source files: a `date` object
is taken as is, a string goes through `date.fromisoformat` (`None` on
`ValueError`), anything else is rejected. -/
def parseDateVal : DateVal → Option PyDate
  | .d x => some x
  | .s str => parseIso str
  | .missing => none

/-! ### Records (models of the loosely-typed dicts) -/

structure StatementTx where
  id : Option String := none
  date : DateVal := .missing
  description : Option String := none
  amount : Option Rat := none
deriving DecidableEq

structure Voucher where
  id : Option String := none
  vendor_name : Option String := none
  transaction_date : Option PyDate := none
  total_amount : Option Rat := none
  raw_text : Option String := none
  /-- the mutable `_matched` flag (absent key modelled as `false`) -/
  matched : Bool := false
deriving DecidableEq

structure Rule where
  keywords : List String := []
  account : Option String := none
deriving DecidableEq

structure Account where
  name : Option String := none
deriving DecidableEq

/-! ### Matcher (`src/matching_engine.py`) -/

/-- One entry of the `potential_matches` list built by
`find_matching_voucher`; the voucher is identified by its position in the
input voucher list (Python keeps a reference to the dict instead). -/
structure Cand where
  idx : Nat
  score : Int
  dateDiff : Int
deriving DecidableEq

/-- The stable sort key `(-score, date_diff)` used on `potential_matches`. -/
def candKey (c : Cand) : Int × Int := (-c.score, c.dateDiff)

/-- Strict lexicographic comparison on sort keys. -/
def lexLtB (a b : Int × Int) : Bool :=
  a.1 < b.1 || (a.1 == b.1 && a.2 < b.2)

/-- The lower-cased statement description, `st_description` in the source
(get of the description key with empty default, lower-cased). -/
def stDescLower (tx : StatementTx) : List Char :=
  lowerChars ((tx.description.getD ("")).data)

/-- The lower-cased vendor name, `v_vendor` in the source
(get of the vendor name key with empty default, lower-cased). -/
def vendorLowerOf (v : Voucher) : List Char :=
  lowerChars ((v.vendor_name.getD ("")).data)

/-- `vendor_parts` of the source: whitespace-split tokens of the
lower-cased vendor name that are longer than 2 characters. -/
def vendorParts (vendor : List Char) : List (List Char) :=
  (splitWS vendor).filter (fun p => 2 < p.length)

/-- `common_parts` of the source: how many such tokens occur in the
lower-cased statement description. -/
def partsHits (desc vendor : List Char) : Nat :=
  (vendorParts vendor).countP (fun p => containsSub desc p)

/-- The description-based score bonus of `find_matching_voucher`:
`+50` for a truthy vendor name contained in the description, otherwise
`+10` per common vendor token (nothing for an empty vendor name). -/
def scoreBonus (desc vendor : List Char) : Int :=
  if !vendor.isEmpty && containsSub desc vendor then 50
  else if !vendor.isEmpty then 10 * (partsHits desc vendor : Int)
  else 0

/-- The body of the candidate loop of `find_matching_voucher` for one
voucher (paired with its position): skip consumed or invalid vouchers,
require exact absolute-amount equality and date proximity within
tolerance, then score; only positive scores become candidates. -/
def candOf (a : Rat) (stOrd : Int) (desc : List Char) (tol : Int)
    (iv : Nat × Voucher) : Option Cand :=
  if iv.2.matched then none
  else
    match iv.2.transaction_date, iv.2.total_amount with
    | some vd, some vAmt =>
      if |a| != vAmt then none
      else
        if tol < |stOrd - vd.toOrdinal| then none
        else
          if 0 < (tol - |stOrd - vd.toOrdinal|) * 10 +
              scoreBonus desc (vendorLowerOf iv.2) then
            some ⟨iv.1,
              (tol - |stOrd - vd.toOrdinal|) * 10 +
                scoreBonus desc (vendorLowerOf iv.2),
              |stOrd - vd.toOrdinal|⟩
          else none
    | _, _ => none

/-- Position-tagged enumeration of the voucher list. -/
def enumFrom (n : Nat) : List Voucher → List (Nat × Voucher)
  | [] => []
  | v :: vs => (n, v) :: enumFrom (n + 1) vs

/-- The `potential_matches` list of `find_matching_voucher`, in voucher
input order. -/
def candList (tx : StatementTx) (vouchers : List Voucher) (tol : Int) :
    List Cand :=
  match parseDateVal tx.date, tx.amount with
  | some d, some a =>
    (enumFrom 0 vouchers).filterMap (candOf a d.toOrdinal (stDescLower tx) tol)
  | _, _ => []

/-- Head of the stable sort of the candidates by `candKey`: scan keeping
the current best and replace it only on a strictly smaller key, which is
exactly the first element of the stable ascending sort. -/
def pickBest (best : Cand) : List Cand → Cand
  | [] => best
  | c :: rest =>
    if lexLtB (candKey c) (candKey best) then pickBest c rest
    else pickBest best rest

/-- `find_matching_voucher`, returning the position of the chosen voucher
(the source returns the dict itself): `None` on an empty voucher list, a
missing/invalid statement date, a missing amount, or a non-negative
(credit/zero) amount; otherwise the best-scored candidate. -/
def find_matching_voucher_idx (tx : StatementTx) (vouchers : List Voucher)
    (tol : Int) : Option Nat :=
  if vouchers.isEmpty then none
  else
    match parseDateVal tx.date, tx.amount with
    | some _, some a =>
      if 0 ≤ a then none
      else
        match candList tx vouchers tol with
        | [] => none
        | c :: cs => some (pickBest c cs).idx
    | _, _ => none

/-- `find_matching_voucher` as in the source signature: the voucher value. -/
def find_matching_voucher (tx : StatementTx) (vouchers : List Voucher)
    (tol : Int) : Option Voucher :=
  (find_matching_voucher_idx tx vouchers tol).bind (vouchers[·]?)

/-- One row of the result list of `match_transactions_to_vouchers`; the matched
voucher is identified by its position in the voucher list. -/
structure MatchResult where
  statement : StatementTx
  voucherIdx : Option Nat
  status : String
deriving DecidableEq

/-- Setting the `_matched` flag of the voucher at a position. -/
def setMatched : List Voucher → Nat → List Voucher
  | [], _ => []
  | v :: vs, 0 => { v with matched := true } :: vs
  | v :: vs, n + 1 => v :: setMatched vs n

/-- The per-statement step of `match_transactions_to_vouchers`. -/
def matchStep (tol : Int) (vs : List Voucher) (tx : StatementTx) :
    MatchResult × List Voucher :=
  if 0 ≤ tx.amount.getD 0 then
    (⟨tx, none, "ignored_credit_or_zero"⟩, vs)
  else
    match find_matching_voucher_idx tx vs tol with
    | some i => (⟨tx, some i, "matched"⟩, setMatched vs i)
    | none => (⟨tx, none, "unmatched"⟩, vs)

/-- The statement loop of `match_transactions_to_vouchers`, threading the
voucher state. -/
def matchGo (tol : Int) (vs : List Voucher) :
    List StatementTx → List MatchResult × List Voucher
  | [] => ([], vs)
  | t :: ts =>
    let p := matchStep tol vs t
    let q := matchGo tol p.2 ts
    (p.1 :: q.1, q.2)

/-- The initial reset loop clearing every matched flag. -/
def eraseMatched (v : Voucher) : Voucher := { v with matched := false }

def resetAll (vs : List Voucher) : List Voucher := vs.map eraseMatched

/-- `match_transactions_to_vouchers`: reset all `_matched` flags, then
process the statements in order; returns the result rows and the final
voucher state (the source mutates the voucher list in place). -/
def match_transactions_to_vouchers (sts : List StatementTx)
    (vs : List Voucher) (tol : Int) : List MatchResult × List Voucher :=
  matchGo tol (resetAll vs) sts

/-! ### Rule engine and journal generator (`src/journal_generator.py`) -/

/-- Eligibility-and-match test for one rule: a rule must have a non-empty
keyword list, and matches when some lower-cased keyword is a substring of
the lower-cased description. -/
def ruleMatches (descLower : List Char) (r : Rule) : Bool :=
  !r.keywords.isEmpty &&
    r.keywords.any (fun k => containsSub descLower (lowerChars k.data))

/-- `apply_rules_to_transaction`: `None` on an empty rule list or a falsy
description; otherwise the first rule in list order that is eligible and
matches the lower-cased description.  The amount parameter is unused in
this version of the code. -/
def apply_rules_to_transaction (desc : Option String)
    (_amount : Option Rat) (rules : List Rule) : Option Rule :=
  if rules.isEmpty || !strTruthy desc then none
  else
    let descLower := lowerChars ((desc.getD ("")).data)
    rules.find? (ruleMatches descLower)

structure Posting where
  account : String
  debit : Rat
  credit : Rat
deriving DecidableEq

/-- A journal entry exactly as the source builds the dict: there is no
`id`, `confidence` or `notes` key in this version of the code. -/
structure JournalEntry where
  date : String
  description : String
  postings : List Posting
  status : String
  source_statement_id : Option String
  source_voucher_id : Option String
deriving DecidableEq

/-- One row of the `matched_results` input of `generate_journal_entries`
(dict with possibly-missing keys). -/
structure MatchItem where
  statement : Option StatementTx := none
  voucher : Option Voucher := none
  status : String := ""
deriving DecidableEq

/-- Bank-account resolution: look the default name up in the accounts
config and take the name of that entry, else fall back to the literal default
(the source only prints a warning). -/
def bankNameOf (accounts : List Account) (defaultBank : String) : String :=
  match accounts.find? (fun a => a.name == some defaultBank) with
  | some acc => acc.name.getD defaultBank
  | none => defaultBank

/-- Python truthiness of `rule and rule.get("account")`. -/
def ruleAccount (rule : Option Rule) : Option String :=
  match rule with
  | some r => if strTruthy r.account then some (r.account.getD ("")) else none
  | none => none

/-- The loop body of `generate_journal_entries` for one result row:
`none` means the row contributes no entry (a continue in the source, or an
unhandled branch leaving the postings list empty). -/
def genEntryForItem (bankName suspenseName : String) (rules : List Rule)
    (item : MatchItem) : Option JournalEntry :=
  match item.statement with
  | none => none
  | some st =>
    match parseDateVal st.date with
    | none => none
    | some d =>
      let txAmount := st.amount.getD 0
      let txDescription := st.description.getD ("N/A")
      let entryDescription :=
        match item.voucher with
        | some v =>
          if strTruthy v.vendor_name && (item.status == "matched") then
            (v.vendor_name.getD ("")) ++ " - " ++ txDescription
          else txDescription
        | none => txDescription
      let srcVoucherId := item.voucher.bind (fun v => v.id)
      let mk (postings : List Posting) (status : String) : JournalEntry :=
        ⟨d.isoformat, entryDescription, postings, status, st.id, srcVoucherId⟩
      let fallback : Option JournalEntry :=
        if item.status == "unmatched" && txAmount < 0 then
          let amt := |txAmount|
          some (mk [⟨suspenseName, amt, 0⟩, ⟨bankName, 0, amt⟩]
            "unmatched_debit")
        else if item.status == "ignored_credit_or_zero" && 0 < txAmount then
          let rule :=
            apply_rules_to_transaction (some txDescription) (some txAmount)
              rules
          let income :=
            match ruleAccount rule with
            | some a => (a, "auto_generated_rule_income")
            | none => (suspenseName, "unmatched_credit")
          some (mk [⟨bankName, txAmount, 0⟩, ⟨income.1, 0, txAmount⟩]
            income.2)
        else none
      match item.voucher with
      | some v =>
        if item.status == "matched" then
          let ruleSource := pyOrStr v.raw_text v.vendor_name
          let rule := apply_rules_to_transaction ruleSource v.total_amount rules
          let expense :=
            match ruleAccount rule with
            | some a => (a, "auto_generated_rule")
            | none => (suspenseName, "auto_generated_matched_no_rule")
          let amt := |txAmount|
          some (mk [⟨expense.1, amt, 0⟩, ⟨bankName, 0, amt⟩] expense.2)
        else fallback
      | none => fallback

/-- `generate_journal_entries`: resolve the bank account once, then build
at most one entry per result row, in input order. -/
def generate_journal_entries (items : List MatchItem)
    (accounts : List Account) (rules : List Rule)
    (default_bank_account_name : String := "Checking Account")
    (default_suspense_account_name : String := "Suspense") :
    List JournalEntry :=
  items.filterMap
    (genEntryForItem (bankNameOf accounts default_bank_account_name)
      default_suspense_account_name rules)

/-! ### Helper lemmas -/

theorem find?_eq_some_split {α : Type} (p : α → Bool) :
    ∀ (l : List α) (a : α), l.find? p = some a →
      ∃ l₁ l₂, l = l₁ ++ a :: l₂ ∧ p a = true ∧ ∀ x ∈ l₁, p x = false := by
  intro l
  induction l with
  | nil => intro a h; simp [List.find?] at h
  | cons x xs ih =>
    intro a h
    by_cases hp : p x = true
    · rw [List.find?_cons_of_pos _ hp] at h
      obtain rfl : x = a := by injection h
      exact ⟨[], xs, rfl, hp, by simp⟩
    · rw [List.find?_cons_of_neg _ (by simpa using hp)] at h
      obtain ⟨l₁, l₂, heq, hpa, hall⟩ := ih a h
      refine ⟨x :: l₁, l₂, by simp [heq], hpa, ?_⟩
      intro y hy
      rcases List.mem_cons.mp hy with rfl | hy
      · simpa using hp
      · exact hall y hy

theorem find?_isSome_of_mem {α : Type} (p : α → Bool) :
    ∀ (l : List α) (a : α), a ∈ l → p a = true → (l.find? p).isSome = true := by
  intro l
  induction l with
  | nil => intro a h; simp at h
  | cons x xs ih =>
    intro a ha hp
    by_cases hx : p x = true
    · rw [List.find?_cons_of_pos _ hx]; rfl
    · rw [List.find?_cons_of_neg _ (by simpa using hx)]
      rcases List.mem_cons.mp ha with rfl | ha
      · exact absurd hp hx
      · exact ih a ha hp

/-! ### Claim C5 -/

/-- C5: `apply_rules_to_transaction` returns `none` when the text is
empty/absent or the rule list is empty; otherwise it lower-cases the text,
skips rules with an empty keyword set, and returns the first rule in list
order for which some lower-cased keyword is a substring of the lower-cased
text — every rule before it in the list either has no keywords or fails to
match, and an eligible matching rule anywhere in the list guarantees a
result.  The embedding is a pure function, so there are no side effects. -/
theorem C5_apply_rules_spec (desc : Option String) (amt : Option Rat)
    (rules : List Rule) :
    ((rules = [] ∨ strTruthy desc = false) →
      apply_rules_to_transaction desc amt rules = none)
  ∧ (∀ r, apply_rules_to_transaction desc amt rules = some r →
      ∃ l₁ l₂, rules = l₁ ++ r :: l₂
        ∧ (r.keywords ≠ [] ∧ ∃ k ∈ r.keywords,
            containsSub (lowerChars ((desc.getD ("")).data))
              (lowerChars k.data) = true)
        ∧ ∀ r2 ∈ l₁, r2.keywords = [] ∨ ∀ k ∈ r2.keywords,
            containsSub (lowerChars ((desc.getD ("")).data))
              (lowerChars k.data) = false)
  ∧ (∀ r ∈ rules, strTruthy desc = true →
      ruleMatches (lowerChars ((desc.getD ("")).data)) r = true →
      (apply_rules_to_transaction desc amt rules).isSome = true) := by
  refine ⟨?_, ?_, ?_⟩
  · rintro (rfl | h)
    · simp [apply_rules_to_transaction]
    · simp [apply_rules_to_transaction, h]
  · intro r h
    unfold apply_rules_to_transaction at h
    by_cases hc : (rules.isEmpty || !strTruthy desc) = true
    · simp [hc] at h
    · rw [if_neg hc] at h
      obtain ⟨l₁, l₂, heq, hpr, hall⟩ := find?_eq_some_split _ rules r h
      refine ⟨l₁, l₂, heq, ?_, ?_⟩
      · rw [ruleMatches] at hpr
        simp only [Bool.and_eq_true] at hpr
        obtain ⟨h1, h2⟩ := hpr
        refine ⟨by simpa [List.isEmpty_iff] using h1, ?_⟩
        simpa using List.any_eq_true.mp h2
      · intro r2 hr2
        have hm := hall r2 hr2
        rw [ruleMatches] at hm
        rcases Bool.and_eq_false_iff.mp hm with h1 | h2
        · exact Or.inl (by simpa [List.isEmpty_iff] using h1)
        · refine Or.inr ?_
          intro k hk
          have := List.any_eq_false.mp h2 k hk
          simpa using this
  · intro r hr hdesc hm
    unfold apply_rules_to_transaction
    have hne : rules.isEmpty = false := by
      cases rules with
      | nil => simp at hr
      | cons a l => rfl
    rw [if_neg (by simp [hne, hdesc])]
    exact find?_isSome_of_mem _ rules r hr hm

/-- The rule configuration of the repository test suite. -/
def rulesC5 : List Rule :=
  [ { keywords := ["staples", "office depot"], account := some ("Office Expenses") },
    { keywords := ["adobe", "microsoft subs"], account := some ("Software") },
    { keywords := ["client payment", "consulting fee"],
      account := some ("Consulting Revenue") } ]

theorem C5_apply_rules_spec_witness :
    apply_rules_to_transaction none none rulesC5 = none
  ∧ (apply_rules_to_transaction (some ("Invoice from STAPLES")) (some (100))
      rulesC5).isSome = true :=
  ⟨(C5_apply_rules_spec none none rulesC5).1 (Or.inr rfl),
   (C5_apply_rules_spec (some ("Invoice from STAPLES")) (some (100))
      rulesC5).2.2
     { keywords := ["staples", "office depot"],
       account := some ("Office Expenses") }
     (by decide) (by decide) (by decide)⟩

/-! ### Claim C9 -/

/-- C9: `generate_journal_entries` accepts a structured date or an
ISO-8601 string per statement; a result row whose statement record is
missing, or whose date neither is a date value nor parses as `YYYY-MM-DD`,
is skipped with no entry, and the batch always returns a list no longer
than its input (the embedding is total, so no per-item error can abort
it). -/
theorem C9_generate_total :
    (∀ (items : List MatchItem) (accounts : List Account) (rules : List Rule)
        (bank susp : String),
      (generate_journal_entries items accounts rules bank susp).length ≤
        items.length)
  ∧ (∀ (bank susp : String) (rules : List Rule) (item : MatchItem),
      item.statement = none → genEntryForItem bank susp rules item = none)
  ∧ (∀ (bank susp : String) (rules : List Rule) (item : MatchItem)
        (st : StatementTx), item.statement = some st →
      parseDateVal st.date = none → genEntryForItem bank susp rules item = none)
  ∧ (∀ d : PyDate, parseDateVal (DateVal.d d) = some d) := by
  refine ⟨?_, ?_, ?_, fun d => rfl⟩
  · intro items accounts rules bank susp
    exact List.length_filterMap_le _ _
  · intro bank susp rules item h
    simp [genEntryForItem, h]
  · intro bank susp rules item st h1 h2
    simp [genEntryForItem, h1, h2]

/-- A result row with no statement record, and one with a slash-formatted
date, from the repository test suite. -/
def itemC9a : MatchItem := { status := "unmatched" }

def stC9b : StatementTx :=
  { date := DateVal.s ("2023/02/01"), description := some ("Debit B"),
    amount := some (-20) }

def itemC9b : MatchItem :=
  { statement := some stC9b, status := "unmatched" }

theorem C9_generate_total_witness :
    genEntryForItem ("Main Checking") ("Suspense Account") [] itemC9a = none
  ∧ genEntryForItem ("Main Checking") ("Suspense Account") [] itemC9b = none :=
  ⟨C9_generate_total.2.1 ("Main Checking") ("Suspense Account") [] itemC9a rfl,
   C9_generate_total.2.2.1 ("Main Checking") ("Suspense Account") [] itemC9b
     stC9b rfl (by decide)⟩

/-! ### Claim C1 (evaluation of the code at Scenario A and Scenario D) -/

def stC1A : StatementTx :=
  { id := some ("stmt1"), date := DateVal.d ⟨2023, 10, 5⟩,
    description := some ("OFFICE DEPOT #123"), amount := some (-50) }

def vC1A : Voucher :=
  { vendor_name := some ("Office Depot"),
    transaction_date := some ⟨2023, 10, 4⟩, total_amount := some (50) }

def itemC1A : MatchItem :=
  { statement := some stC1A, voucher := some vC1A, status := "matched" }

def ruleC1A : Rule :=
  { keywords := ["office depot"], account := some ("Office Expenses") }

def stC1D : StatementTx :=
  { date := DateVal.d ⟨2023, 1, 13⟩,
    description := some ("Client Payment from ACME"), amount := some (500) }

def itemC1D : MatchItem :=
  { statement := some stC1D, status := "ignored_credit_or_zero" }

def ruleC1D : Rule :=
  { keywords := ["client payment"], account := some ("Consulting Revenue") }

/-- C1: the code run at the Scenario A result row emits the status
string auto_generated_rule — not auto_generated_high_confidence — and at
the Scenario D row auto_generated_rule_income — not
auto_generated_income_high_confidence; no confidence value exists anywhere
in the entry the code builds (the `JournalEntry` record mirrors the dict
keys the source writes).  The postings are as the claim states. -/
theorem C1_code_eval :
    (generate_journal_entries [itemC1A] [] [ruleC1A]).map
        (fun e => (e.status, e.postings)) =
      [("auto_generated_rule",
        [{ account := "Office Expenses", debit := 50, credit := 0 },
         { account := "Checking Account", debit := 0, credit := 50 }])]
  ∧ (generate_journal_entries [itemC1D] [] [ruleC1D]).map
        (fun e => (e.status, e.postings)) =
      [("auto_generated_rule_income",
        [{ account := "Checking Account", debit := 500, credit := 0 },
         { account := "Consulting Revenue", debit := 0, credit := 500 }])] := by
  exact ⟨by decide, by decide⟩

/-! ### Claim C4 (evaluation of the description logic) -/

def stC4a : StatementTx :=
  { id := some ("s1"), date := DateVal.d ⟨2023, 1, 10⟩,
    description := some ("STAPLES STORE 001"), amount := some (-50) }

def vC4 : Voucher :=
  { id := some ("v1"), vendor_name := some ("Staples"),
    raw_text := some ("Staples office supplies receipt"),
    total_amount := some (50) }

def stC4b : StatementTx :=
  { date := DateVal.d ⟨2023, 1, 11⟩,
    description := some ("RANDOM PAYMENT"), amount := some (-50) }

/-- C4: the code prepends the vendor name whenever a voucher with a truthy
vendor name is present on a row whose status is matched, with no
substring check — for the statement description STAPLES STORE 001 and
vendor Staples it emits Staples - STAPLES STORE 001, where the claim (and
the repository test suite) require the unchanged description; and on a
non-matched row it never prepends, even when the vendor name is not a
substring of the description. -/
theorem C4_code_eval :
    (generate_journal_entries
        [{ statement := some stC4a, voucher := some vC4, status := "matched" }]
        [] []).map (fun e => e.description) = ["Staples - STAPLES STORE 001"]
  ∧ (generate_journal_entries
        [{ statement := some stC4b, voucher := some vC4, status := "unmatched" }]
        [] []).map (fun e => e.description) = ["RANDOM PAYMENT"] := by
  exact ⟨by decide, by decide⟩

/-! ### Claim C8 (evaluation: the built entry has no id key) -/

def stC8 : StatementTx :=
  { id := some ("stmt_abc"), date := DateVal.d ⟨2023, 3, 1⟩,
    description := some ("Tx with ID"), amount := some (-10) }

/-- C8: the full record the code builds for a statement carrying the id
stmt_abc: the only identifier field the code writes is
source_statement_id; the entry has no id of its own (and hence no
generated fallback id for id-less statements either) — the `JournalEntry`
record lists exactly the keys the source dict carries. -/
theorem C8_code_eval :
    generate_journal_entries
        [{ statement := some stC8, voucher := none, status := "unmatched" }]
        [] [] =
      [{ date := "2023-03-01", description := "Tx with ID",
         postings :=
           [{ account := "Suspense", debit := 10, credit := 0 },
            { account := "Checking Account", debit := 0, credit := 10 }],
         status := "unmatched_debit",
         source_statement_id := some ("stmt_abc"),
         source_voucher_id := none }] := by
  decide

/-! ### Claim C2, counterexample part -/

/-- Modelled from the claim wording (for comparison with the code): the
text bonus with no vendor non-emptiness guard — +50 whenever the full
lower-cased vendor name is a substring of the lower-cased description,
otherwise +10 per long vendor token found in it. -/
def claimedTextBonus (desc vendor : List Char) : Int :=
  if containsSub desc vendor then 50
  else 10 * (partsHits desc vendor : Int)

def stC2e : StatementTx :=
  { date := DateVal.d ⟨2023, 10, 8⟩, description := some ("PAYMENT"),
    amount := some (-10) }

def vC2e : Voucher :=
  { vendor_name := some (""), transaction_date := some ⟨2023, 10, 5⟩,
    total_amount := some (10) }

/-- C2 counterexample: a debit of -10 against a voucher with an empty
vendor name, equal amount 10, and a date difference of exactly the
tolerance (3 days).  The voucher passes the non-consumed, exact-amount and
date-tolerance filters, and the claim formula scores it
(3 − 3) × 10 + 50 = 50 > 0 (an empty vendor name is a substring of every
description), so the claim requires this voucher to be returned; the code
guards the +50 bonus behind a truthy vendor name, scores 0, discards the
candidate, and returns none. -/
theorem C2_counterexample :
    find_matching_voucher_idx stC2e [vC2e] 3 = none
  ∧ candList stC2e [vC2e] 3 = []
  ∧ vC2e.matched = false
  ∧ (stC2e.amount.map (fun a => |a|)) = vC2e.total_amount
  ∧ |PyDate.toOrdinal ⟨2023, 10, 8⟩ - PyDate.toOrdinal ⟨2023, 10, 5⟩| = 3
  ∧ (3 - 3) * 10 +
      claimedTextBonus (stDescLower stC2e) (vendorLowerOf vC2e) = 50 := by
  refine ⟨by decide, by decide, rfl, by decide, by decide, by decide⟩

/-! ### Claims C6 and C7, counterexample parts -/

def stC6 : StatementTx :=
  { date := DateVal.d ⟨2023, 10, 22⟩,
    description := some ("Zero amount test"), amount := some (0) }

def itemC6 : MatchItem :=
  { statement := some stC6, voucher := some {}, status := "matched" }

/-- C6 counterexample: a result row with statement amount exactly 0 and
matcher status matched with a voucher present does emit a journal entry
(the matched branch of the code takes any amount and its postings list is
never empty), contradicting the claim that a zero amount never yields an
entry regardless of status. -/
theorem C6_counterexample :
    (generate_journal_entries [itemC6] [] []).length = 1 := by
  decide

def stC7 : StatementTx :=
  { date := DateVal.d ⟨2023, 11, 30⟩,
    description := some ("Zero amount matched"), amount := some (0) }

def itemC7 : MatchItem :=
  { statement := some stC7, voucher := some {}, status := "matched" }

/-- C7 counterexample: the entry emitted for a zero-amount matched row has
two postings in which debit and credit are both zero, contradicting the
claim that exactly one of the two is non-zero in every posting. -/
theorem C7_counterexample :
    (generate_journal_entries [itemC7] [] []).map
        (fun e => e.postings.map (fun p => (p.debit, p.credit))) =
      [[((0 : Rat), (0 : Rat)), ((0 : Rat), (0 : Rat))]] := by
  decide

/-- C6 (amended): a result row whose statement amount is exactly 0 (or
missing, which the code defaults to 0) yields no journal entry whenever it
is not a matched row with a voucher present — in particular for the
statuses unmatched and ignored_credit_or_zero; a matched row with a
voucher present is the one exception and does emit an entry. -/
theorem C6_zero_amount_amended (bank susp : String) (rules : List Rule)
    (item : MatchItem) (st : StatementTx)
    (hst : item.statement = some st) (h0 : st.amount.getD 0 = 0)
    (h : item.status ≠ "matched" ∨ item.voucher = none) :
    genEntryForItem bank susp rules item = none := by
  cases hd : parseDateVal st.date with
  | none => simp [genEntryForItem, hst, hd]
  | some d =>
    rcases h with h | h
    · have hb : (item.status == "matched") = false := by
        simp [h]
      cases hv : item.voucher <;> simp [genEntryForItem, hst, hd, hb, hv, h0]
    · cases hb : item.status == "matched" <;>
        simp [genEntryForItem, hst, hd, h, hb, h0]

def stC6w : StatementTx :=
  { date := DateVal.d ⟨2023, 1, 15⟩,
    description := some ("Zero Balance Adjustment"), amount := some (0) }

def itemC6w : MatchItem :=
  { statement := some stC6w, voucher := none,
    status := "ignored_credit_or_zero" }

theorem C6_zero_amount_amended_witness :
    genEntryForItem ("Main Checking") ("Suspense Account") [] itemC6w = none :=
  C6_zero_amount_amended ("Main Checking") ("Suspense Account") [] itemC6w
    stC6w rfl (by decide) (Or.inl (by decide))

/-- Shape of the postings of any entry the code emits: two legs of
absolute amount for the matched and unmatched-debit branches, or two legs
of the (positive) raw amount for the credit branch. -/
theorem genEntryForItem_postings (bank susp : String) (rules : List Rule)
    (item : MatchItem) (e : JournalEntry)
    (h : genEntryForItem bank susp rules item = some e) :
    ∃ st, item.statement = some st ∧
      ∃ a1 a2,
        e.postings =
            [{ account := a1, debit := |st.amount.getD 0|, credit := 0 },
             { account := a2, debit := 0, credit := |st.amount.getD 0| }]
        ∨ (e.postings =
            [{ account := a1, debit := st.amount.getD 0, credit := 0 },
             { account := a2, debit := 0, credit := st.amount.getD 0 }]
          ∧ 0 < st.amount.getD 0) := by
  cases hst : item.statement with
  | none => simp [genEntryForItem, hst] at h
  | some st =>
    refine ⟨st, rfl, ?_⟩
    cases hd : parseDateVal st.date with
    | none => simp [genEntryForItem, hst, hd] at h
    | some d =>
      cases hv : item.voucher with
      | some v =>
        cases hb : item.status == "matched" with
        | true =>
          simp only [genEntryForItem, hst, hd, hv, hb, eq_self_iff_true,
            if_true] at h
          simp only [Option.some.injEq] at h
          subst h
          exact ⟨_, _, Or.inl rfl⟩
        | false =>
          simp only [genEntryForItem, hst, hd, hv, hb, Bool.false_eq_true,
            if_false] at h
          split at h
          · simp only [Option.some.injEq] at h
            subst h
            exact ⟨_, _, Or.inl rfl⟩
          · split at h
            · rename_i hcred
              simp only [Bool.and_eq_true, decide_eq_true_eq] at hcred
              simp only [Option.some.injEq] at h
              subst h
              exact ⟨_, _, Or.inr ⟨rfl, hcred.2⟩⟩
            · exact absurd h (by simp)
      | none =>
        simp only [genEntryForItem, hst, hd, hv] at h
        split at h
        · simp only [Option.some.injEq] at h
          subst h
          exact ⟨_, _, Or.inl rfl⟩
        · split at h
          · rename_i hcred
            simp only [Bool.and_eq_true, decide_eq_true_eq] at hcred
            simp only [Option.some.injEq] at h
            subst h
            exact ⟨_, _, Or.inr ⟨rfl, hcred.2⟩⟩
          · exact absurd h (by simp)

/-- C7 (amended): every entry the code emits has exactly two postings, in
each posting at least one of debit and credit is zero, and exactly one of
the two is non-zero whenever the statement amount is non-zero (a matched
row with amount exactly 0 yields two postings that are zero on both
sides); the builder never adds a third posting. -/
theorem C7_postings_amended (bank susp : String) (rules : List Rule)
    (item : MatchItem) (e : JournalEntry)
    (h : genEntryForItem bank susp rules item = some e) :
    e.postings.length = 2
  ∧ (∀ p ∈ e.postings, p.debit = 0 ∨ p.credit = 0)
  ∧ (∀ st, item.statement = some st → st.amount.getD 0 ≠ 0 →
      ∀ p ∈ e.postings,
        (p.debit = 0 ∧ p.credit ≠ 0) ∨ (p.debit ≠ 0 ∧ p.credit = 0)) := by
  obtain ⟨st, hst, a1, a2, hp⟩ := genEntryForItem_postings bank susp rules item e h
  rcases hp with hp | ⟨hp, hpos⟩
  · refine ⟨by rw [hp]; rfl, ?_, ?_⟩
    · intro p hmem
      rw [hp] at hmem
      rcases List.mem_cons.mp hmem with rfl | hmem
      · exact Or.inr rfl
      · rcases List.mem_cons.mp hmem with rfl | hmem
        · exact Or.inl rfl
        · simp at hmem
    · intro st2 hst2 hne p hmem
      rw [hst] at hst2
      obtain rfl : st = st2 := by injection hst2
      have habs : |st.amount.getD 0| ≠ 0 := abs_ne_zero.mpr hne
      rw [hp] at hmem
      rcases List.mem_cons.mp hmem with rfl | hmem
      · exact Or.inr ⟨habs, rfl⟩
      · rcases List.mem_cons.mp hmem with rfl | hmem
        · exact Or.inl ⟨rfl, habs⟩
        · simp at hmem
  · have hne0 : st.amount.getD 0 ≠ 0 := ne_of_gt hpos
    refine ⟨by rw [hp]; rfl, ?_, ?_⟩
    · intro p hmem
      rw [hp] at hmem
      rcases List.mem_cons.mp hmem with rfl | hmem
      · exact Or.inr rfl
      · rcases List.mem_cons.mp hmem with rfl | hmem
        · exact Or.inl rfl
        · simp at hmem
    · intro st2 hst2 hne p hmem
      rw [hp] at hmem
      rcases List.mem_cons.mp hmem with rfl | hmem
      · exact Or.inr ⟨hne0, rfl⟩
      · rcases List.mem_cons.mp hmem with rfl | hmem
        · exact Or.inl ⟨rfl, hne0⟩
        · simp at hmem

def stC7w : StatementTx :=
  { date := DateVal.d ⟨2023, 1, 12⟩,
    description := some ("MYSTERY DEBIT"), amount := some (-30) }

def itemC7w : MatchItem :=
  { statement := some stC7w, voucher := none, status := "unmatched" }

def eC7w : JournalEntry :=
  { date := "2023-01-12", description := "MYSTERY DEBIT",
    postings :=
      [{ account := "Suspense Account", debit := 30, credit := 0 },
       { account := "Main Checking", debit := 0, credit := 30 }],
    status := "unmatched_debit",
    source_statement_id := none, source_voucher_id := none }

theorem C7_postings_amended_witness :
    eC7w.postings.length = 2
  ∧ (∀ p ∈ eC7w.postings, p.debit = 0 ∨ p.credit = 0)
  ∧ (∀ p ∈ eC7w.postings,
      (p.debit = 0 ∧ p.credit ≠ 0) ∨ (p.debit ≠ 0 ∧ p.credit = 0)) :=
  have h := C7_postings_amended ("Main Checking") ("Suspense Account") []
    itemC7w eC7w (by decide)
  ⟨h.1, h.2.1, h.2.2 stC7w rfl (by decide)⟩

/-! ### Claim C10 -/

theorem setMatched_map_erase (vs : List Voucher) :
    ∀ i, (setMatched vs i).map eraseMatched = vs.map eraseMatched := by
  induction vs with
  | nil => intro i; rfl
  | cons v vs ih =>
    intro i
    cases i with
    | zero => simp [setMatched, eraseMatched]
    | succ n => simp [setMatched, eraseMatched, ih n]

theorem matchStep_snd_map_erase (tol : Int) (vs : List Voucher)
    (tx : StatementTx) :
    ((matchStep tol vs tx).2).map eraseMatched = vs.map eraseMatched := by
  unfold matchStep
  split
  · rfl
  · split
    · exact setMatched_map_erase vs _
    · rfl

theorem matchGo_snd_map_erase (tol : Int) (sts : List StatementTx) :
    ∀ vs : List Voucher,
      ((matchGo tol vs sts).2).map eraseMatched = vs.map eraseMatched := by
  induction sts with
  | nil => intro vs; rfl
  | cons t ts ih =>
    intro vs
    show ((matchGo tol (matchStep tol vs t).2 ts).2).map eraseMatched = _
    rw [ih, matchStep_snd_map_erase]

theorem resetAll_idem (vs : List Voucher) : resetAll (resetAll vs) = resetAll vs := by
  induction vs with
  | nil => rfl
  | cons v vs ih =>
    show eraseMatched (eraseMatched v) :: resetAll (resetAll vs) = _
    rw [ih]; rfl

/-- C10: a matching run never mutates any voucher field other than the
matched flag — erasing the flags of the final voucher state gives back the
input with its flags erased, position by position (in particular every
`total_amount` is untouched) — and it resets every flag before
processing, so running on a list carrying consumption state from a prior
run is the same as running on the cleared list. -/
theorem C10_matcher_frame (sts : List StatementTx) (vs : List Voucher)
    (tol : Int) :
    ((match_transactions_to_vouchers sts vs tol).2).map eraseMatched =
      vs.map eraseMatched
  ∧ (∀ i : Nat,
      (((match_transactions_to_vouchers sts vs tol).2)[i]?).map
          (fun v => v.total_amount) =
        (vs[i]?).map (fun v => v.total_amount))
  ∧ match_transactions_to_vouchers sts vs tol =
      match_transactions_to_vouchers sts (resetAll vs) tol := by
  have h1 : ((match_transactions_to_vouchers sts vs tol).2).map eraseMatched =
      vs.map eraseMatched := by
    show ((matchGo tol (resetAll vs) sts).2).map eraseMatched = _
    rw [matchGo_snd_map_erase]
    exact resetAll_idem vs
  refine ⟨h1, ?_, ?_⟩
  · intro i
    have h2 := congrArg
      (fun l => (l[i]?).map (fun v => v.total_amount)) h1
    simpa [List.getElem?_map, Option.map_map, Function.comp,
      eraseMatched] using h2
  · show matchGo tol (resetAll vs) sts = matchGo tol (resetAll (resetAll vs)) sts
    rw [resetAll_idem]

/-! ### Claim C3 -/

theorem enumFrom_mem :
    ∀ (vs : List Voucher) (n : Nat) (p : Nat × Voucher), p ∈ enumFrom n vs →
      ∃ k, p.1 = n + k ∧ vs[k]? = some p.2 := by
  intro vs
  induction vs with
  | nil => intro n p h; simp [enumFrom] at h
  | cons v vs ih =>
    intro n p h
    rcases List.mem_cons.mp h with rfl | h
    · exact ⟨0, by simp, by simp⟩
    · obtain ⟨k, hk, hv⟩ := ih (n + 1) p h
      exact ⟨k + 1, by omega, by simpa using hv⟩

theorem candOf_matched_false {a : Rat} {stOrd : Int} {desc : List Char}
    {tol : Int} {iv : Nat × Voucher} {c : Cand}
    (h : candOf a stOrd desc tol iv = some c) :
    iv.2.matched = false ∧ c.idx = iv.1 := by
  unfold candOf at h
  split at h
  · exact absurd h (by simp)
  · rename_i hm
    refine ⟨by simpa using hm, ?_⟩
    split at h
    · split at h
      · exact absurd h (by simp)
      · split at h
        · exact absurd h (by simp)
        · split at h
          · obtain rfl := Option.some.inj h
            rfl
          · exact absurd h (by simp)
    · exact absurd h (by simp)

theorem candList_idx {tx : StatementTx} {vs : List Voucher} {tol : Int}
    {c : Cand} (h : c ∈ candList tx vs tol) :
    ∃ v, vs[c.idx]? = some v ∧ v.matched = false := by
  unfold candList at h
  split at h
  · obtain ⟨p, hp, hc⟩ := List.mem_filterMap.mp h
    obtain ⟨k, hk, hv⟩ := enumFrom_mem vs 0 p hp
    obtain ⟨hm, hidx⟩ := candOf_matched_false hc
    exact ⟨p.2, by rw [hidx, hk]; simpa using hv, hm⟩
  · simp at h

theorem pickBest_mem (b : Cand) : ∀ cs : List Cand, pickBest b cs ∈ b :: cs := by
  intro cs
  induction cs generalizing b with
  | nil => simp [pickBest]
  | cons c rest ih =>
    unfold pickBest
    split
    · rcases List.mem_cons.mp (ih c) with h | h
      · rw [h]; simp
      · exact List.mem_cons_of_mem _ (List.mem_cons_of_mem _ h)
    · rcases List.mem_cons.mp (ih b) with h | h
      · rw [h]; simp
      · exact List.mem_cons_of_mem _ (List.mem_cons_of_mem _ h)

theorem find_idx_sound {tx : StatementTx} {vs : List Voucher} {tol : Int}
    {i : Nat} (h : find_matching_voucher_idx tx vs tol = some i) :
    (∃ v, vs[i]? = some v ∧ v.matched = false)
    ∧ ∃ a, tx.amount = some a ∧ a < 0 := by
  unfold find_matching_voucher_idx at h
  split at h
  · exact absurd h (by simp)
  · cases hpd : parseDateVal tx.date with
    | none => rw [hpd] at h; simp at h
    | some pd =>
      cases ha : tx.amount with
      | none => rw [hpd, ha] at h; simp at h
      | some a =>
        rw [hpd, ha] at h
        simp only [] at h
        by_cases hge : 0 ≤ a
        · rw [if_pos hge] at h; simp at h
        · rw [if_neg hge] at h
          cases hcl : candList tx vs tol with
          | nil => rw [hcl] at h; simp at h
          | cons c cs =>
            rw [hcl] at h
            simp only [Option.some.injEq] at h
            subst h
            have hmem : pickBest c cs ∈ candList tx vs tol := by
              rw [hcl]; exact pickBest_mem c cs
            obtain ⟨v, hvv, hvm⟩ := candList_idx hmem
            exact ⟨⟨v, hvv, hvm⟩, a, rfl, lt_of_not_ge hge⟩

/-- The voucher at position j is present and already consumed. -/
def Marked (vs : List Voucher) (j : Nat) : Prop :=
  ∃ v, vs[j]? = some v ∧ v.matched = true

theorem setMatched_getElem? (vs : List Voucher) :
    ∀ i j, (setMatched vs i)[j]? =
      if i = j then (vs[j]?).map (fun v => { v with matched := true })
      else vs[j]? := by
  induction vs with
  | nil => intro i j; cases i <;> simp [setMatched]
  | cons v vs ih =>
    intro i j
    cases i with
    | zero =>
      cases j with
      | zero => simp [setMatched]
      | succ m => simp [setMatched]
    | succ n =>
      cases j with
      | zero => simp [setMatched]
      | succ m =>
        have := ih n m
        by_cases hnm : n = m <;> simp [setMatched, hnm] at this ⊢ <;>
          simpa using this

theorem marked_setMatched {vs : List Voucher} {j : Nat} (i : Nat)
    (h : Marked vs j) : Marked (setMatched vs i) j := by
  obtain ⟨v, hv, hm⟩ := h
  rw [Marked, setMatched_getElem?]
  by_cases hij : i = j
  · exact ⟨{ v with matched := true }, by simp [hij, hv], rfl⟩
  · exact ⟨v, by simp [hij, hv], hm⟩

theorem marked_setMatched_self {vs : List Voucher} {i : Nat} {v : Voucher}
    (h : vs[i]? = some v) : Marked (setMatched vs i) i := by
  rw [Marked, setMatched_getElem?]
  exact ⟨{ v with matched := true }, by simp [h], rfl⟩

/-- Explicit dispatch of `matchStep` into its three outcomes. -/
theorem matchStep_cases (tol : Int) (vs : List Voucher) (tx : StatementTx) :
    (0 ≤ tx.amount.getD 0 ∧
      matchStep tol vs tx = (⟨tx, none, "ignored_credit_or_zero"⟩, vs))
  ∨ (¬ 0 ≤ tx.amount.getD 0 ∧
      ∃ i, find_matching_voucher_idx tx vs tol = some i ∧
        matchStep tol vs tx = (⟨tx, some i, "matched"⟩, setMatched vs i))
  ∨ (¬ 0 ≤ tx.amount.getD 0 ∧
      find_matching_voucher_idx tx vs tol = none ∧
      matchStep tol vs tx = (⟨tx, none, "unmatched"⟩, vs)) := by
  by_cases h : 0 ≤ tx.amount.getD 0
  · exact Or.inl ⟨h, by unfold matchStep; rw [if_pos h]⟩
  · cases hf : find_matching_voucher_idx tx vs tol with
    | some i =>
      exact Or.inr (Or.inl ⟨h, i, rfl, by unfold matchStep; rw [if_neg h, hf]⟩)
    | none =>
      exact Or.inr (Or.inr ⟨h, rfl, by unfold matchStep; rw [if_neg h, hf]⟩)

theorem matchGo_not_marked (tol : Int) (sts : List StatementTx) :
    ∀ (vs : List Voucher) (j : Nat), Marked vs j →
      ∀ r ∈ (matchGo tol vs sts).1, r.voucherIdx ≠ some j := by
  induction sts with
  | nil => intro vs j _ r hr; simp [matchGo] at hr
  | cons t ts ih =>
    intro vs j hj r hr
    have hr' : r = (matchStep tol vs t).1 ∨
        r ∈ (matchGo tol (matchStep tol vs t).2 ts).1 := by
      simpa [matchGo] using List.mem_cons.mp hr
    rcases matchStep_cases tol vs t with ⟨h0, heq⟩ | ⟨h0, i, hf, heq⟩ |
      ⟨h0, hf, heq⟩
    · rcases hr' with rfl | hr'
      · rw [heq]; simp
      · rw [heq] at hr'
        exact ih vs j hj r hr'
    · rcases hr' with rfl | hr'
      · rw [heq]
        simp only [ne_eq, Option.some.injEq]
        rintro rfl
        obtain ⟨⟨v, hvv, hvm⟩, _⟩ := find_idx_sound hf
        obtain ⟨w, hw, hwm⟩ := hj
        rw [hvv] at hw
        obtain rfl : v = w := by injection hw
        rw [hvm] at hwm
        exact Bool.false_ne_true hwm
      · rw [heq] at hr'
        exact ih (setMatched vs i) j (marked_setMatched i hj) r hr'
    · rcases hr' with rfl | hr'
      · rw [heq]; simp
      · rw [heq] at hr'
        exact ih vs j hj r hr'

theorem matchGo_pairwise (tol : Int) (sts : List StatementTx) :
    ∀ vs : List Voucher,
      List.Pairwise
        (fun r1 r2 => ∀ i : Nat, r1.voucherIdx = some i →
          r2.voucherIdx ≠ some i)
        (matchGo tol vs sts).1 := by
  induction sts with
  | nil => intro vs; exact List.Pairwise.nil
  | cons t ts ih =>
    intro vs
    have hshape : (matchGo tol vs (t :: ts)).1 =
        (matchStep tol vs t).1 :: (matchGo tol (matchStep tol vs t).2 ts).1 := rfl
    rw [hshape]
    refine List.Pairwise.cons ?_ (ih (matchStep tol vs t).2)
    intro r hr i hi
    rcases matchStep_cases tol vs t with ⟨h0, heq⟩ | ⟨h0, k, hf, heq⟩ |
      ⟨h0, hf, heq⟩
    · rw [heq] at hi; simp at hi
    · rw [heq] at hi
      simp only [Option.some.injEq] at hi
      subst i
      obtain ⟨⟨v, hvv, _⟩, _⟩ := find_idx_sound hf
      have hmarked : Marked (matchStep tol vs t).2 k := by
        rw [heq]
        exact marked_setMatched_self hvv
      exact matchGo_not_marked tol ts _ k hmarked r hr
    · rw [heq] at hi; simp at hi

theorem candList_nil_of_all_marked {tx : StatementTx} {vs : List Voucher}
    {tol : Int}
    (h : ∀ (j : Nat) (v : Voucher), vs[j]? = some v → v.matched = true) :
    candList tx vs tol = [] := by
  unfold candList
  split
  · rw [List.filterMap_eq_nil_iff]
    intro p hp
    obtain ⟨k, _, hv⟩ := enumFrom_mem vs 0 p hp
    have hpm : p.2.matched = true := h k p.2 hv
    unfold candOf
    rw [if_pos (by simpa using hpm)]
  · rfl

theorem find_idx_none_of_all_marked {tx : StatementTx} {vs : List Voucher}
    {tol : Int}
    (h : ∀ (j : Nat) (v : Voucher), vs[j]? = some v → v.matched = true) :
    find_matching_voucher_idx tx vs tol = none := by
  unfold find_matching_voucher_idx
  split
  · rfl
  · cases hpd : parseDateVal tx.date with
    | none => rfl
    | some pd =>
      cases ha : tx.amount with
      | none => rfl
      | some a =>
        simp only []
        by_cases hge : 0 ≤ a
        · rw [if_pos hge]
        · rw [if_neg hge, candList_nil_of_all_marked h]

/-- C3: in every matching run, each voucher is the matched voucher of at
most one result row (the result rows carry pairwise different voucher
positions), and when a single voucher is eligible for two statements —
both find it on the fresh, reset voucher list — exactly the earlier
statement is matched to it and the later one comes out unmatched. -/
theorem C3_voucher_consumed_once :
    (∀ (sts : List StatementTx) (vs : List Voucher) (tol : Int),
      List.Pairwise
        (fun r1 r2 => ∀ i : Nat, r1.voucherIdx = some i →
          r2.voucherIdx ≠ some i)
        (match_transactions_to_vouchers sts vs tol).1)
  ∧ (∀ (s1 s2 : StatementTx) (v : Voucher) (tol : Int),
      find_matching_voucher_idx s1 (resetAll [v]) tol = some 0 →
      find_matching_voucher_idx s2 (resetAll [v]) tol = some 0 →
      ((match_transactions_to_vouchers [s1, s2] [v] tol).1).map
          (fun r => (r.status, r.voucherIdx)) =
        [("matched", some 0), ("unmatched", none)]) := by
  constructor
  · intro sts vs tol
    exact matchGo_pairwise tol sts (resetAll vs)
  · intro s1 s2 v tol h1 h2
    obtain ⟨_, a1, ha1, ha1n⟩ := find_idx_sound h1
    obtain ⟨_, a2, ha2, ha2n⟩ := find_idx_sound h2
    have hs1 : ¬ (0 ≤ s1.amount.getD 0) := by rw [ha1]; exact not_le.mpr ha1n
    have hs2 : ¬ (0 ≤ s2.amount.getD 0) := by rw [ha2]; exact not_le.mpr ha2n
    have hstep1 : matchStep tol (resetAll [v]) s1 =
        (⟨s1, some 0, "matched"⟩, setMatched (resetAll [v]) 0) := by
      unfold matchStep
      rw [if_neg hs1, h1]
    have hall : ∀ (j : Nat) (w : Voucher),
        (setMatched (resetAll [v]) 0)[j]? = some w → w.matched = true := by
      intro j w hw
      rw [setMatched_getElem?] at hw
      cases j with
      | zero =>
        rw [if_pos rfl] at hw
        have hz : (resetAll [v])[0]? = some (eraseMatched v) := rfl
        rw [hz] at hw
        simp only [Option.map_some'] at hw
        obtain rfl := Option.some.inj hw
        rfl
      | succ m =>
        rw [if_neg (by omega)] at hw
        cases m <;> simp [resetAll] at hw
    have hstep2 : matchStep tol (setMatched (resetAll [v]) 0) s2 =
        (⟨s2, none, "unmatched"⟩, setMatched (resetAll [v]) 0) := by
      unfold matchStep
      rw [if_neg hs2, find_idx_none_of_all_marked hall]
    show ((matchGo tol (resetAll [v]) [s1, s2]).1).map _ = _
    have hgo : (matchGo tol (resetAll [v]) [s1, s2]).1 =
        (matchStep tol (resetAll [v]) s1).1 ::
        (matchStep tol (matchStep tol (resetAll [v]) s1).2 s2).1 :: [] := rfl
    rw [hgo, hstep1]
    rw [show (matchStep tol (setMatched (resetAll [v]) 0) s2).1 =
      (⟨s2, none, "unmatched"⟩ : MatchResult) from congrArg Prod.fst hstep2]
    rfl

def stC3a : StatementTx :=
  { date := DateVal.d ⟨2023, 11, 1⟩,
    description := some ("COFFEE SHOP A"), amount := some (-5) }

def stC3b : StatementTx :=
  { date := DateVal.d ⟨2023, 11, 2⟩,
    description := some ("COFFEE SHOP A"), amount := some (-5) }

def vC3 : Voucher :=
  { vendor_name := some ("Coffee Shop A"),
    transaction_date := some ⟨2023, 11, 1⟩, total_amount := some (5) }

theorem C3_voucher_consumed_once_witness :
    ((match_transactions_to_vouchers [stC3a, stC3b] [vC3] 3).1).map
        (fun r => (r.status, r.voucherIdx)) =
      [("matched", some 0), ("unmatched", none)] :=
  C3_voucher_consumed_once.2 stC3a stC3b vC3 3 (by decide) (by decide)

/-! ### Claim C2 -/

theorem lexLtB_iff (x y : Int × Int) :
    lexLtB x y = true ↔ (x.1 < y.1 ∨ (x.1 = y.1 ∧ x.2 < y.2)) := by
  simp [lexLtB]

theorem lexLtB_eq_false_iff (x y : Int × Int) :
    lexLtB x y = false ↔ ¬ (x.1 < y.1 ∨ (x.1 = y.1 ∧ x.2 < y.2)) := by
  rw [Bool.eq_false_iff, Ne, ← lexLtB_iff]

theorem lexLtB_irrefl (x : Int × Int) : lexLtB x x = false := by
  rw [lexLtB_eq_false_iff]; omega

theorem lexLtB_asymm {x y : Int × Int} (h : lexLtB x y = true) :
    lexLtB y x = false := by
  rw [lexLtB_iff] at h
  rw [lexLtB_eq_false_iff]
  omega

theorem lexLtB_lt_of_le_of_lt {x y z : Int × Int}
    (h1 : lexLtB x y = false) (h2 : lexLtB x z = true) :
    lexLtB y z = true := by
  rw [lexLtB_eq_false_iff] at h1
  rw [lexLtB_iff] at h2 ⊢
  omega

theorem lexLtB_lt_of_lt_of_le {x y z : Int × Int}
    (h1 : lexLtB x y = true) (h2 : lexLtB z y = false) :
    lexLtB x z = true := by
  rw [lexLtB_iff] at h1 ⊢
  rw [lexLtB_eq_false_iff] at h2
  omega

/-- `pickBest` returns an element of the candidate list whose key no other
candidate beats, and which strictly beats every candidate placed before
it: the head of the stable ascending sort by the key. -/
theorem pickBest_split :
    ∀ (cs : List Cand) (b : Cand),
      ∃ l₁ l₂, b :: cs = l₁ ++ pickBest b cs :: l₂
        ∧ (∀ e ∈ b :: cs,
            lexLtB (candKey e) (candKey (pickBest b cs)) = false)
        ∧ (∀ e ∈ l₁, lexLtB (candKey (pickBest b cs)) (candKey e) = true) := by
  intro cs
  induction cs with
  | nil =>
    intro b
    refine ⟨[], [], rfl, ?_, by simp⟩
    intro e he
    obtain rfl : e = b := by simpa using he
    exact lexLtB_irrefl _
  | cons c rest ih =>
    intro b
    have hdef : pickBest b (c :: rest) =
        if lexLtB (candKey c) (candKey b) = true then pickBest c rest
        else pickBest b rest := rfl
    by_cases hcb : lexLtB (candKey c) (candKey b) = true
    · have hpb : pickBest b (c :: rest) = pickBest c rest := by
        rw [hdef, if_pos hcb]
      obtain ⟨l₁, l₂, heq, hmin, hfirst⟩ := ih c
      have hcp : lexLtB (candKey c) (candKey (pickBest c rest)) = false :=
        hmin c (by simp)
      have hppb : lexLtB (candKey (pickBest c rest)) (candKey b) = true :=
        lexLtB_lt_of_le_of_lt hcp hcb
      refine ⟨b :: l₁, l₂, ?_, ?_, ?_⟩
      · rw [hpb]
        simpa using heq
      · intro e he
        rw [hpb]
        rcases List.mem_cons.mp he with rfl | he
        · exact lexLtB_asymm hppb
        · exact hmin e he
      · intro e he
        rw [hpb]
        rcases List.mem_cons.mp he with rfl | he
        · exact hppb
        · exact hfirst e he
    · have hcb' : lexLtB (candKey c) (candKey b) = false :=
        Bool.eq_false_iff.mpr hcb
      have hpb : pickBest b (c :: rest) = pickBest b rest := by
        rw [hdef, if_neg hcb]
      obtain ⟨l₁, l₂, heq, hmin, hfirst⟩ := ih b
      cases l₁ with
      | nil =>
        simp only [List.nil_append] at heq
        injection heq with hb hl
        refine ⟨[], c :: rest, ?_, ?_, by simp⟩
        · simp only [List.nil_append]
          rw [hpb, ← hb]
        · intro e he
          rw [hpb, ← hb]
          rcases List.mem_cons.mp he with rfl | he
          · exact lexLtB_irrefl _
          · rcases List.mem_cons.mp he with rfl | he
            · exact hcb'
            · have := hmin e (List.mem_cons_of_mem b he)
              rwa [← hb] at this
      | cons x l₁t =>
        simp only [List.cons_append] at heq
        injection heq with hxb hrest
        subst hxb
        have hpBb : lexLtB (candKey (pickBest b rest)) (candKey b) = true :=
          hfirst b (by simp)
        have hpBc : lexLtB (candKey (pickBest b rest)) (candKey c) = true :=
          lexLtB_lt_of_lt_of_le hpBb hcb'
        refine ⟨b :: c :: l₁t, l₂, ?_, ?_, ?_⟩
        · rw [hpb]
          simp only [List.cons_append]
          rw [← hrest]
        · intro e he
          rw [hpb]
          rcases List.mem_cons.mp he with rfl | he
          · exact hmin e (by simp)
          · rcases List.mem_cons.mp he with rfl | he
            · exact lexLtB_asymm hpBc
            · exact hmin e (List.mem_cons_of_mem b he)
        · intro e he
          rw [hpb]
          rcases List.mem_cons.mp he with rfl | he
          · exact hpBb
          · rcases List.mem_cons.mp he with rfl | he
            · exact hpBc
            · exact hfirst e (List.mem_cons_of_mem b he)

/-- The score bonus rewritten in the shape of the specification sentence,
with the vendor non-emptiness guard made explicit (an empty vendor name
has no tokens, so the token branch already yields 0 for it). -/
theorem scoreBonus_eq (desc vendor : List Char) :
    scoreBonus desc vendor =
      if vendor ≠ [] ∧ containsSub desc vendor = true then 50
      else 10 * (partsHits desc vendor : Int) := by
  cases vendor with
  | nil =>
    simp [scoreBonus, partsHits, vendorParts, splitWS]
  | cons c cs =>
    rw [scoreBonus]
    by_cases h : containsSub desc (c :: cs) = true
    · rw [if_pos (by simp [h]), if_pos ⟨by simp, h⟩]
    · rw [if_neg (by simp [h]), if_pos (by simp), if_neg (by simp [h])]

theorem candOf_some {a : Rat} {stOrd : Int} {desc : List Char} {tol : Int}
    {iv : Nat × Voucher} {c : Cand}
    (h : candOf a stOrd desc tol iv = some c) :
    c.idx = iv.1 ∧ iv.2.matched = false ∧
    ∃ vd, iv.2.transaction_date = some vd ∧
      iv.2.total_amount = some |a| ∧
      c.dateDiff = |stOrd - vd.toOrdinal| ∧ c.dateDiff ≤ tol ∧
      c.score = (tol - c.dateDiff) * 10 +
        scoreBonus desc (vendorLowerOf iv.2) ∧
      0 < c.score := by
  unfold candOf at h
  split at h
  · exact absurd h (by simp)
  · rename_i hm
    split at h
    · rename_i vd vAmt hvd hva
      split at h
      · exact absurd h (by simp)
      · rename_i hamt
        split at h
        · exact absurd h (by simp)
        · rename_i hdd
          split at h
          · rename_i hsc
            obtain rfl := Option.some.inj h
            have hav : |a| = vAmt := by
              simpa [bne_iff_ne] using hamt
            refine ⟨rfl, by simpa using hm, vd, hvd, ?_, rfl,
              le_of_not_lt hdd, rfl, hsc⟩
            rw [hva, hav]
          · exact absurd h (by simp)
    · exact absurd h (by simp)

theorem candList_mem_spec {tx : StatementTx} {vs : List Voucher} {tol : Int}
    {c : Cand} (h : c ∈ candList tx vs tol) :
    ∃ pd a, parseDateVal tx.date = some pd ∧ tx.amount = some a ∧
    ∃ v, vs[c.idx]? = some v ∧ v.matched = false ∧
      v.total_amount = some |a| ∧
      ∃ vd, v.transaction_date = some vd ∧
        c.dateDiff = |pd.toOrdinal - vd.toOrdinal| ∧ c.dateDiff ≤ tol ∧
        c.score = (tol - c.dateDiff) * 10 +
          scoreBonus (stDescLower tx) (vendorLowerOf v) ∧
        0 < c.score := by
  unfold candList at h
  split at h
  · rename_i pd a hpd ha
    obtain ⟨p, hp, hc⟩ := List.mem_filterMap.mp h
    obtain ⟨k, hk, hv⟩ := enumFrom_mem vs 0 p hp
    obtain ⟨hidx, hm, vd, hvd, hta, hddEq, hddLe, hscEq, hscPos⟩ :=
      candOf_some hc
    exact ⟨pd, a, hpd, ha, p.2, by rw [hidx, hk]; simpa using hv, hm, hta,
      vd, hvd, hddEq, hddLe, hscEq, hscPos⟩
  · simp at h

theorem candList_empty_date {tx : StatementTx} {vs : List Voucher}
    {tol : Int} (h : parseDateVal tx.date = none) :
    candList tx vs tol = [] := by
  unfold candList
  rw [h]

theorem candList_empty_vouchers {tx : StatementTx} {tol : Int} :
    candList tx [] tol = [] := by
  unfold candList
  split <;> rfl

/-- C2 (amended): for a debit statement, the candidates of
`find_matching_voucher` are exactly the non-consumed vouchers passing the
exact-amount and date-tolerance filters, scored as
(toleranceDays − dateDiffDays) × 10 plus 50 when the vendor name is
non-empty and its lower-cased form is a substring of the lower-cased
description, otherwise plus 10 per vendor-name token longer than 2
characters found in the description; candidates with score ≤ 0 are
discarded, and among the rest the returned voucher has maximum score, ties
broken by smallest date difference, then by input voucher-list order
(first-seen wins); credit or zero-amount transactions always return none,
and a non-empty candidate list always produces a match. -/
theorem C2_matcher_spec :
    (∀ (tx : StatementTx) (vs : List Voucher) (tol : Int) (a : Rat),
      tx.amount = some a → 0 ≤ a →
      find_matching_voucher_idx tx vs tol = none)
  ∧ (∀ (tx : StatementTx) (vs : List Voucher) (tol : Int) (c : Cand),
      c ∈ candList tx vs tol →
      ∃ pd a, parseDateVal tx.date = some pd ∧ tx.amount = some a ∧
      ∃ v, vs[c.idx]? = some v ∧ v.matched = false ∧
        v.total_amount = some |a| ∧
        ∃ vd, v.transaction_date = some vd ∧
          c.dateDiff = |pd.toOrdinal - vd.toOrdinal| ∧ c.dateDiff ≤ tol ∧
          c.score = (tol - c.dateDiff) * 10 +
            (if vendorLowerOf v ≠ [] ∧
                containsSub (stDescLower tx) (vendorLowerOf v) = true
             then 50
             else 10 * (partsHits (stDescLower tx) (vendorLowerOf v) : Int)) ∧
          0 < c.score)
  ∧ (∀ (tx : StatementTx) (vs : List Voucher) (tol : Int) (i : Nat),
      find_matching_voucher_idx tx vs tol = some i →
      ∃ c l₁ l₂, candList tx vs tol = l₁ ++ c :: l₂ ∧ c.idx = i ∧
        (∀ e ∈ candList tx vs tol, e.score ≤ c.score) ∧
        (∀ e ∈ candList tx vs tol, e.score = c.score →
          c.dateDiff ≤ e.dateDiff) ∧
        (∀ e ∈ l₁, e.score < c.score ∨
          (e.score = c.score ∧ c.dateDiff < e.dateDiff)))
  ∧ (∀ (tx : StatementTx) (vs : List Voucher) (tol : Int) (a : Rat),
      tx.amount = some a → a < 0 → candList tx vs tol ≠ [] →
      (find_matching_voucher_idx tx vs tol).isSome = true) := by
  refine ⟨?_, ?_, ?_, ?_⟩
  · intro tx vs tol a ha hge
    unfold find_matching_voucher_idx
    split
    · rfl
    · cases hpd : parseDateVal tx.date with
      | none => rfl
      | some pd =>
        rw [ha]
        simp only []
        rw [if_pos hge]
  · intro tx vs tol c hc
    obtain ⟨pd, a, hpd, ha, v, hvv, hvm, hta, vd, hvd, hddEq, hddLe,
      hscEq, hscPos⟩ := candList_mem_spec hc
    rw [scoreBonus_eq] at hscEq
    exact ⟨pd, a, hpd, ha, v, hvv, hvm, hta, vd, hvd, hddEq, hddLe,
      hscEq, hscPos⟩
  · intro tx vs tol i h
    unfold find_matching_voucher_idx at h
    split at h
    · exact absurd h (by simp)
    · cases hpd : parseDateVal tx.date with
      | none => rw [hpd] at h; simp at h
      | some pd =>
        cases ha : tx.amount with
        | none => rw [hpd, ha] at h; simp at h
        | some a =>
          rw [hpd, ha] at h
          simp only [] at h
          by_cases hge : 0 ≤ a
          · rw [if_pos hge] at h; simp at h
          · rw [if_neg hge] at h
            cases hcl : candList tx vs tol with
            | nil => rw [hcl] at h; simp at h
            | cons c0 cs =>
              rw [hcl] at h
              simp only [Option.some.injEq] at h
              subst h
              obtain ⟨l₁, l₂, heq, hmin, hfirst⟩ := pickBest_split cs c0
              refine ⟨pickBest c0 cs, l₁, l₂, heq, rfl, ?_, ?_, ?_⟩
              · intro e he
                have := hmin e he
                rw [lexLtB_eq_false_iff] at this
                simp only [candKey] at this
                omega
              · intro e he hsc
                have := hmin e he
                rw [lexLtB_eq_false_iff] at this
                simp only [candKey] at this
                omega
              · intro e he
                have := hfirst e he
                rw [lexLtB_iff] at this
                simp only [candKey] at this
                omega
  · intro tx vs tol a ha hneg hne
    unfold find_matching_voucher_idx
    split
    · rename_i hemp
      obtain rfl : vs = [] := by simpa [List.isEmpty_iff] using hemp
      exact absurd candList_empty_vouchers hne
    · cases hpd : parseDateVal tx.date with
      | none => exact absurd (candList_empty_date hpd) hne
      | some pd =>
        rw [ha]
        simp only []
        rw [if_neg (not_le.mpr hneg)]
        cases hcl : candList tx vs tol with
        | nil => exact absurd hcl hne
        | cons c0 cs => rfl

def stC2w : StatementTx :=
  { date := DateVal.d ⟨2023, 10, 5⟩,
    description := some ("Refund from Office Depot"), amount := some (50) }

def stC2d : StatementTx :=
  { date := DateVal.d ⟨2023, 10, 5⟩,
    description := some ("OFFICE DEPOT #123"), amount := some (-50) }

def vC2w : Voucher :=
  { vendor_name := some ("Office Depot"),
    transaction_date := some ⟨2023, 10, 4⟩, total_amount := some (50) }

theorem C2_matcher_spec_witness :
    find_matching_voucher_idx stC2w [vC2w] 3 = none
  ∧ (find_matching_voucher_idx stC2d [vC2w] 3).isSome = true :=
  ⟨C2_matcher_spec.1 stC2w [vC2w] 3 50 rfl (by norm_num),
   C2_matcher_spec.2.2.2 stC2d [vC2w] 3 (-50) rfl (by norm_num) (by decide)⟩

end Recon
